import Mathlib

set_option maxRecDepth 100000

/-!
Verification development for a C++ Sudoku solver (cs-ehanc001/cs480_hw2).

The board is `std::array<char, 81> m_data`, addressed row-major through a
9×9 `mdspan` view.  We embed cells as the numeric values of the C++ `char`s:
the digits `'1'..'9'` are `49..57` and the empty sentinel `'_'` is `95`.
Every function below is a direct translation of the corresponding function in
`src/cpp/src/Sudoku/{checking,trivial_moves,solve}.cpp` and
`src/cpp/include/sudoku.hpp`; comments note the source symbol.
-/

/-- Numeric value of the empty-cell sentinel character, `'_'`. -/
def underscore : Nat := 95

/-- Numeric values of the digit characters `'1'..'9'`. -/
def digit_chars : List Nat := [49, 50, 51, 52, 53, 54, 55, 56, 57]

/-- A board is the flat 81-cell row-major array `Sudoku::m_data`. -/
abbrev Board := List Nat

/-- Reading a cell through the mdspan view: `data_view(row, col)`.
All source loops index with `row, col ∈ 0..8`, so the default value of
`getD` is never produced on an 81-cell board. -/
def cellAt (b : Board) (r c : Nat) : Nat := b.getD (r * 9 + c) underscore

/-- Writing a cell through the mdspan view: `data_view(row, col) = v`. -/
def setCell (b : Board) (r c v : Nat) : Board := b.set (r * 9 + c) v

/-- The index list `std::views::iota(0_z, 9_z)` used by every loop. -/
def idx9 : List Nat := [0, 1, 2, 3, 4, 5, 6, 7, 8]

/-- Cell positions of row `r`, in the order the row loops walk them. -/
def rowIdxs (r : Nat) : List (Nat × Nat) := idx9.map (fun c => (r, c))

/-- Cell positions of column `c`, in the order the column loops walk them. -/
def colIdxs (c : Nat) : List (Nat × Nat) := idx9.map (fun r => (r, c))

/-- The constant `section_table` of `src/cpp/src/Sudoku/section_table.hpp`:
for each of the nine 3×3 sections, its nine cell positions, row-major. -/
def section_table : List (List (Nat × Nat)) :=
  [[(0, 0), (0, 1), (0, 2), (1, 0), (1, 1), (1, 2), (2, 0), (2, 1), (2, 2)],
   [(0, 3), (0, 4), (0, 5), (1, 3), (1, 4), (1, 5), (2, 3), (2, 4), (2, 5)],
   [(0, 6), (0, 7), (0, 8), (1, 6), (1, 7), (1, 8), (2, 6), (2, 7), (2, 8)],
   [(3, 0), (3, 1), (3, 2), (4, 0), (4, 1), (4, 2), (5, 0), (5, 1), (5, 2)],
   [(3, 3), (3, 4), (3, 5), (4, 3), (4, 4), (4, 5), (5, 3), (5, 4), (5, 5)],
   [(3, 6), (3, 7), (3, 8), (4, 6), (4, 7), (4, 8), (5, 6), (5, 7), (5, 8)],
   [(6, 0), (6, 1), (6, 2), (7, 0), (7, 1), (7, 2), (8, 0), (8, 1), (8, 2)],
   [(6, 3), (6, 4), (6, 5), (7, 3), (7, 4), (7, 5), (8, 3), (8, 4), (8, 5)],
   [(6, 6), (6, 7), (6, 8), (7, 6), (7, 7), (7, 8), (8, 6), (8, 7), (8, 8)]]

/-- Board values at a list of positions, in order. -/
def cellsOf (b : Board) (ps : List (Nat × Nat)) : List Nat :=
  ps.map (fun p => cellAt b p.1 p.2)

/-- Cells of row `r` in walk order. -/
def rowCells (b : Board) (r : Nat) : List Nat := cellsOf b (rowIdxs r)

/-- Cells of column `c` in walk order. -/
def colCells (b : Board) (c : Nat) : List Nat := cellsOf b (colIdxs c)

/-- The `is_populated` helper of `checking.cpp`: no cell holds `'_'`. -/
def is_populated (b : Board) : Bool := decide (underscore ∉ b)

/-- One step of `check_iteration_handler::operator()` from `checking.cpp`.
The state is `some mask` while iteration is still ok (`mask` is the 9-bit
`check_table`), and `none` once a duplicate digit was seen; `none` is
absorbing, which models the early `return false` of the C++ loops. -/
def checkStep (st : Option Nat) (cell : Nat) : Option Nat :=
  match st with
  | none => none
  | some mask =>
    if cell = underscore then some mask
    else
      let idx := cell - 49
      if mask.testBit idx then none
      else some (mask ||| (1 <<< idx))

/-- Running the duplicate check over one constraint region, starting from the
given `check_table` contents; `true` means no duplicate was detected. -/
def checkRun (init : Nat) (cells : List Nat) : Bool :=
  (cells.foldl checkStep (some init)).isSome

/-- Row-wise portion of `is_legal_state`. -/
def rowsOk (b : Board) : Bool := idx9.all (fun r => checkRun 0 (rowCells b r))

/-- Column-wise portion of `is_legal_state`. -/
def colsOk (b : Board) : Bool := idx9.all (fun c => checkRun 0 (colCells b c))

/-- Section-wise portion of `is_legal_state`. -/
def sectionsOk (b : Board) : Bool :=
  section_table.all (fun sec => checkRun 0 (cellsOf b sec))

/-- The `is_legal_state` function of `checking.cpp`: check all rows; if the
board is fully populated return `true` at once ("row check alone is adequate
for a populated board" per the source comment); otherwise also check all
columns and all sections. -/
def is_legal_state (b : Board) : Bool :=
  rowsOk b && (is_populated b || (colsOk b && sectionsOk b))

/-- The member function `Sudoku::is_valid`. -/
def is_valid (b : Board) : Bool := is_legal_state b

/-- The member function `Sudoku::is_solved`. -/
def is_solved (b : Board) : Bool := is_populated b && is_legal_state b

/-- Subtable of `section_table` containing the given position, as found by
the immediately-invoked lambda in `checking.cpp` (first matching subtable). -/
def sectionContaining (r c : Nat) : List (Nat × Nat) :=
  (section_table.find? (fun sec => decide ((r, c) ∈ sec))).getD []

/-- Cells of the section containing position `(r, c)`, in table order. -/
def sectionCells (b : Board) (r c : Nat) : List Nat :=
  cellsOf b (sectionContaining r c)

/-- The member function `Sudoku::is_legal_assignment(index_pair, char)`.
Only an unpopulated cell may be assigned; then the column, the row and the
section of the target are walked by `check_iteration` with the bit of the
candidate digit preset in the `check_table` (so the walk fails both when the
digit is already present and when the walked unit itself contains a
duplicate).  The C++ `assert`s on the digit range are debug-only and do not
affect the returned value. -/
def is_legal_assignment (b : Board) (r c v : Nat) : Bool :=
  if cellAt b r c ≠ underscore then false
  else
    checkRun (1 <<< (v - 49)) (colCells b c) &&
    checkRun (1 <<< (v - 49)) (rowCells b r) &&
    checkRun (1 <<< (v - 49)) (sectionCells b r c)

/-- One entry of the array returned by `Sudoku::query_domains`:
`variable_domain` from `sudoku.hpp` (`legal_assignments` is a 9-bit mask). -/
structure VarDomain where
  idxs : Nat × Nat
  legal_assignments : Nat
  value : Nat
deriving DecidableEq

/-- Clearing, in a 9-bit mask, the bit of every digit present in `cells`:
the per-unit reduction loops of `query_domains`.  `bitset<9>::reset i` is
modelled as intersecting with the 9-bit complement of bit `i`. -/
def clearDigits (m : Nat) (cells : List Nat) : Nat :=
  cells.foldl
    (fun acc x => if x = underscore then acc else acc &&& (511 ^^^ (1 <<< (x - 49)))) m

/-- The `legal_assignments` mask `query_domains` computes for position
`(r, c)`: `0` for a populated cell; for an empty cell the full mask `511`
reduced by the digits of its row, then its column, then its section.  (The
source's section pass also visits populated cells, whose mask is `0`; that
is a no-op, so the per-cell form is identical.) -/
def domainMask (b : Board) (r c : Nat) : Nat :=
  if cellAt b r c ≠ underscore then 0
  else
    clearDigits
      (clearDigits (clearDigits 511 (rowCells b r)) (colCells b c))
      (sectionCells b r c)

/-- All 81 cell positions in row-major order, as `query_domains` initializes
its array. -/
def allCells : List (Nat × Nat) := idx9.flatMap (fun r => idx9.map (fun c => (r, c)))

/-- The member function `Sudoku::query_domains`. -/
def query_domains (b : Board) : List VarDomain :=
  allCells.map (fun p => ⟨p, domainMask b p.1 p.2, cellAt b p.1 p.2⟩)

/-- The predicate `solve.cpp` calls `has_legal_assignments` (its body is the
`Sudoku::is_possible` definition in `checking.cpp`): every unpopulated cell
has a nonzero legal-assignments mask. -/
def has_legal_assignments (b : Board) : Bool :=
  (query_domains b).all
    (fun d => decide (d.value ≠ underscore) || decide (d.legal_assignments ≠ 0))

/-- Population table of one unit in `trivial_moves.cpp`: bit `x - 49` is set
for every digit `x` appearing among `cells`. -/
def popMask (cells : List Nat) : Nat :=
  cells.foldl (fun m x => if x = underscore then m else m ||| (1 <<< (x - 49))) 0

/-- Number of `false` entries of the population table:
`std::ranges::count(population_table, false)`. -/
def unsetCount (m : Nat) : Nat := (idx9.filter (fun i => ! m.testBit i)).length

/-- Index of the first `false` entry of the population table:
`find(population_table, false) - begin(population_table)`; `9` (= `end`)
when every entry is set, exactly as in the source. -/
def firstUnset (m : Nat) : Nat := (idx9.find? (fun i => ! m.testBit i)).getD 9

/-- Value of `trivial_move_idx` after the inner column loop of
`apply_trivial_row_move`: the last column of row `r` holding `'_'`, or the
zero-initialized `0` when the row has no empty cell. -/
def trivialRowTarget (b : Board) (r : Nat) : Nat :=
  idx9.foldl (fun acc c => if cellAt b r c = underscore then c else acc) 0

/-- Value of `trivial_move_idx` in `apply_trivial_column_move`. -/
def trivialColTarget (b : Board) (c : Nat) : Nat :=
  idx9.foldl (fun acc r => if cellAt b r c = underscore then r else acc) 0

/-- Values of `outer_row, outer_col` in `apply_trivial_section_move`. -/
def trivialSecTarget (b : Board) (sec : List (Nat × Nat)) : Nat × Nat :=
  sec.foldl (fun acc p => if cellAt b p.1 p.2 = underscore then p else acc) (0, 0)

/-- The member function `Sudoku::apply_trivial_row_move`.  Returns the
updated board on success (`true` in C++) and `none` on `false`.  The write
target is `trivial_move_idx` and the written digit is the character of the
unique unset population-table index. -/
def apply_trivial_row_move (b : Board) : Option Board :=
  match idx9.find? (fun r => decide (unsetCount (popMask (rowCells b r)) = 1)) with
  | none => none
  | some r =>
    some (setCell b r (trivialRowTarget b r) (firstUnset (popMask (rowCells b r)) + 49))

/-- The member function `Sudoku::apply_trivial_column_move`. -/
def apply_trivial_column_move (b : Board) : Option Board :=
  match idx9.find? (fun c => decide (unsetCount (popMask (colCells b c)) = 1)) with
  | none => none
  | some c =>
    some (setCell b (trivialColTarget b c) c (firstUnset (popMask (colCells b c)) + 49))

/-- The member function `Sudoku::apply_trivial_section_move`. -/
def apply_trivial_section_move (b : Board) : Option Board :=
  match section_table.find? (fun sec => decide (unsetCount (popMask (cellsOf b sec)) = 1)) with
  | none => none
  | some sec =>
    some (setCell b (trivialSecTarget b sec).1 (trivialSecTarget b sec).2
      (firstUnset (popMask (cellsOf b sec)) + 49))

/-- The member function `Sudoku::apply_trivial_move`: try a row move, then a
column move, then a section move. -/
def apply_trivial_move (b : Board) : Option Board :=
  match apply_trivial_row_move b with
  | some b' => some b'
  | none =>
    match apply_trivial_column_move b with
    | some b' => some b'
    | none => apply_trivial_section_move b

/-- The `Assignment` struct of `sudoku.hpp` (`idxs` flattened to two fields;
`value` is the numeric value of the `char`). -/
structure Assignment where
  row : Nat
  col : Nat
  value : Nat
deriving DecidableEq

/-- The compile-time array `all_possible_assignments` of `solve.cpp`:
every `(row, col, value)` with `row, col ∈ 0..8` and `value ∈ '1'..'9'`,
nested in exactly that loop order. -/
def all_possible_assignments : List Assignment :=
  idx9.flatMap (fun row => idx9.flatMap (fun col => digit_chars.map (fun v => ⟨row, col, v⟩)))

/-- The member function `Sudoku::try_assign`: the pair is (returned `bool`,
board contents after the call). -/
def try_assign (b : Board) (r c v : Nat) : Bool × Board :=
  if is_legal_assignment b r c v then (true, setCell b r c v) else (false, b)

/-- The member function `Sudoku::assign_copy` (its `assert`s are debug-only;
the returned copy is whatever `try_assign` left). -/
def assign_copy (b : Board) (a : Assignment) : Board :=
  (try_assign b a.row a.col a.value).2

/-- Type of the solver's `optimization_callback`: the C++ callback mutates
the board in place and returns an assignment count, so we return both. -/
abbrev Callback := Board → Board × Nat

/-- The `null_optimization` function of `solve.cpp`. -/
def null_optimization : Callback := fun b => (b, 0)

/-- Fuel-indexed form of the `while (sudoku.apply_trivial_move())` loop of
`trivial_move_optimization`.  The C++ loop is not structurally bounded (on
boards violating the `assert(is_valid())` precondition of the move functions
it can rewrite already-populated cells and need not terminate), so the
embedding makes the iteration count explicit. -/
def trivialLoop : Nat → Board → Nat → Board × Nat
  | 0, b, n => (b, n)
  | fuel + 1, b, n =>
    match apply_trivial_move b with
    | none => (b, n)
    | some b' => trivialLoop fuel b' (n + 1)

/-- The `trivial_move_optimization` function of `solve.cpp`.  A board has 81
cells, and on boards satisfying the move functions' asserted precondition
each iteration fills one empty cell, so 1000 iterations cover every
terminating run. -/
def trivial_move_optimization : Callback := fun b => trivialLoop 1000 b 0

/-- The local `Search_Node` struct of `Sudoku::solve`. -/
structure SearchNode where
  board : Board
  depth : Nat
deriving DecidableEq

/-- The `generate_states` lambda of `Sudoku::solve`: filter the legal
assignments, perform each on a copy, drop invalid results, drop results that
are neither solved nor still assignable, reverse, then run the optimization
callback on each survivor.  The second component is the amount added to
`assignment_count` (the callbacks' counts plus `retval.size()`).  The
`tried_assignments` set is write-only in the source (its filter is commented
out), so it is omitted. -/
def generate_states (cb : Callback) (node : SearchNode) : List SearchNode × Nat :=
  let legal := all_possible_assignments.filter
    (fun a => is_legal_assignment node.board a.row a.col a.value)
  let assigned := legal.map
    (fun a => SearchNode.mk (assign_copy node.board a) (node.depth + 1))
  let valid := assigned.filter (fun n => is_valid n.board)
  let live := valid.filter (fun n => is_solved n.board || has_legal_assignments n.board)
  let retval := live.reverse
  (retval.map (fun n => SearchNode.mk (cb n.board).1 n.depth),
   retval.foldl (fun acc n => acc + (cb n.board).2) 0 + retval.length)

/-- The inner `while (frontier.top().depth >= max_depth) careful_pop();`
loop (`max_depth` is the constant 50).  The stack is a list with its head on
top.  `none` models the `frontier.top()` call that the loop condition makes
on an emptied stack, which in C++ is undefined behavior. -/
def deepPops : List SearchNode → Option (SearchNode × List SearchNode)
  | [] => none
  | top :: rest => if 50 ≤ top.depth then deepPops rest else some (top, rest)

/-- Possible outcomes of the main `while (!frontier.empty())` loop. -/
inductive LoopResult where
  | success (count : Nat) (board : Board)
  | finished (count : Nat)
  | exitF
  | ub
  | outOfFuel
deriving DecidableEq

/-- The main loop of `Sudoku::solve`, fuel-indexed.  Each iteration: goal
check on the top; deep pops; expand with `generate_states`; on an empty
child list `careful_pop()` three times (each exits the process when the
frontier is empty, modelled by `exitF`), otherwise pop the expanded node and
push the children.  `success` carries the solved board copied into `*this`
by the `break`; `finished` is a normal loop exit on an empty frontier. -/
def solveLoop (cb : Callback) : List SearchNode → Nat → Nat → LoopResult
  | [], count, _ => .finished count
  | top :: rest, count, fuel =>
    match fuel with
    | 0 => .outOfFuel
    | fuel + 1 =>
      if is_solved top.board then .success count top.board
      else
        match deepPops (top :: rest) with
        | none => .ub
        | some (t, r) =>
          let gs := generate_states cb t
          match gs.1 with
          | [] =>
            match r with
            | [] => .exitF
            | _ :: r2 =>
              match r2 with
              | [] => .exitF
              | _ :: r3 => solveLoop cb r3 (count + gs.2) fuel
          | _ :: _ => solveLoop cb (gs.1.reverse ++ r) (count + gs.2) fuel

/-- Observable outcome of a `Sudoku::solve` call.  `normal count board` is a
normal return of `count` with `*this` holding `board`; `exitFailure board`
is `std::exit(EXIT_FAILURE)` (after printing "No solution found!") with
`*this` holding `board` at exit.  The source has no way to return an
"unsolved" flag: every unsuccessful search exits the process. -/
inductive SolveResult where
  | normal (count : Nat) (board : Board)
  | exitFailure (board : Board)
  | ub
  | outOfFuel
deriving DecidableEq

/-- Fuel given to the embedded main loop. -/
def solveFuelBound : Nat := 10 ^ 40

/-- The member function `Sudoku::solve`: run the callback on `*this`, seed
the frontier with `generate_states({*this, 0})` (a `std::stack` over that
deque, so its top is the deque's back, i.e. the list reversed), run the main
loop, and finally exit with failure unless the board is solved. -/
def solve (cb : Callback) (b : Board) : SolveResult :=
  let p := cb b
  let gs := generate_states cb ⟨p.1, 0⟩
  match solveLoop cb gs.1.reverse (p.2 + gs.2) solveFuelBound with
  | .success n bd => .normal n bd
  | .finished n => if is_solved p.1 then .normal n p.1 else .exitFailure p.1
  | .exitF => .exitFailure p.1
  | .ub => .ub
  | .outOfFuel => .outOfFuel

/-! Specification-side derived notions used to state the claims. -/

/-- Number of empty cells of a board. -/
def emptyCount (b : Board) : Nat := b.count underscore

/-- Well-formed board of the data model: 81 cells, each a digit or empty. -/
def WF (b : Board) : Prop :=
  b.length = 81 ∧ ∀ x ∈ b, x = underscore ∨ (49 ≤ x ∧ x ≤ 57)

instance : DecidablePred WF := fun b => by
  unfold WF
  infer_instance

/-- Number of set bits among the nine domain bits of a mask (the spec's
domain cardinality). -/
def maskCard (m : Nat) : Nat := (idx9.filter (fun i => m.testBit i)).length

/-- First empty cell in row-major order (the spec's branching-cell policy). -/
def firstEmptyCell (b : Board) : Option (Nat × Nat) :=
  allCells.find? (fun p => decide (cellAt b p.1 p.2 = underscore))

/-- Discriminator: did `solve` return normally (i.e. with a solved board)? -/
def isNormal : SolveResult → Bool
  | .normal _ _ => true
  | _ => false

/-- Digit indices (bit positions `0..8`) of the digits present in a cell
list, in order of appearance; empties are skipped. -/
def digitsIdx (cells : List Nat) : List Nat :=
  cells.filterMap (fun x => if x = underscore then none else some (x - 49))

/-- Board literal helper: `0` denotes an empty cell, `1..9` the digits. -/
def mkBoard (l : List Nat) : Board :=
  l.map (fun d => if d = 0 then underscore else 48 + d)

/-! Concrete boards used by the claims. -/

/-- The canonical solved board (scenario S1 of the spec, also the `legal`
board of the repository's tests). -/
def boardS1 : Board := mkBoard
  [1, 9, 8, 5, 2, 6, 3, 4, 7,
   7, 2, 5, 3, 4, 1, 6, 9, 8,
   3, 4, 6, 9, 7, 8, 2, 1, 5,
   9, 8, 1, 2, 5, 7, 4, 6, 3,
   5, 6, 4, 1, 3, 9, 8, 7, 2,
   2, 3, 7, 6, 8, 4, 1, 5, 9,
   4, 7, 3, 8, 1, 5, 9, 2, 6,
   8, 1, 9, 7, 6, 2, 5, 3, 4,
   6, 5, 2, 4, 9, 3, 7, 8, 1]

/-- A fully populated invalid board: S1 with cell (0,0) changed to 9, so row
0 and column 0 both contain two 9s. -/
def boardInvalidFull : Board := setCell boardS1 0 0 57

/-- A second fully populated invalid board: S1 with cell (1,1) changed to 5,
duplicating 5 in row 1. -/
def boardInvalidFull2 : Board := setCell boardS1 1 1 53

/-- S1 with four cells emptied at (0,0), (0,2), (3,0) and (3,2): every unit
has zero or two empty cells, yet the full domain of (0,0) is the singleton
digit 1. -/
def boardC2 : Board := mkBoard
  [0, 9, 0, 5, 2, 6, 3, 4, 7,
   7, 2, 5, 3, 4, 1, 6, 9, 8,
   3, 4, 6, 9, 7, 8, 2, 1, 5,
   0, 8, 0, 2, 5, 7, 4, 6, 3,
   5, 6, 4, 1, 3, 9, 8, 7, 2,
   2, 3, 7, 6, 8, 4, 1, 5, 9,
   4, 7, 3, 8, 1, 5, 9, 2, 6,
   8, 1, 9, 7, 6, 2, 5, 3, 4,
   6, 5, 2, 4, 9, 3, 7, 8, 1]

/-- Nine identical rows `1..9`: every row is duplicate-free, but every
column and every section holds the same digit repeatedly. -/
def boardRows9 : Board := mkBoard
  [1, 2, 3, 4, 5, 6, 7, 8, 9,
   1, 2, 3, 4, 5, 6, 7, 8, 9,
   1, 2, 3, 4, 5, 6, 7, 8, 9,
   1, 2, 3, 4, 5, 6, 7, 8, 9,
   1, 2, 3, 4, 5, 6, 7, 8, 9,
   1, 2, 3, 4, 5, 6, 7, 8, 9,
   1, 2, 3, 4, 5, 6, 7, 8, 9,
   1, 2, 3, 4, 5, 6, 7, 8, 9,
   1, 2, 3, 4, 5, 6, 7, 8, 9]

/-- The all-empty board. -/
def boardEmpty : Board := mkBoard
  [0, 0, 0, 0, 0, 0, 0, 0, 0,
   0, 0, 0, 0, 0, 0, 0, 0, 0,
   0, 0, 0, 0, 0, 0, 0, 0, 0,
   0, 0, 0, 0, 0, 0, 0, 0, 0,
   0, 0, 0, 0, 0, 0, 0, 0, 0,
   0, 0, 0, 0, 0, 0, 0, 0, 0,
   0, 0, 0, 0, 0, 0, 0, 0, 0,
   0, 0, 0, 0, 0, 0, 0, 0, 0,
   0, 0, 0, 0, 0, 0, 0, 0, 0]

/-- S1 with cells (0,0) and (8,8) emptied: two empty cells in different
rows, columns and sections, each with singleton domain digit 1. -/
def boardC5 : Board := mkBoard
  [0, 9, 8, 5, 2, 6, 3, 4, 7,
   7, 2, 5, 3, 4, 1, 6, 9, 8,
   3, 4, 6, 9, 7, 8, 2, 1, 5,
   9, 8, 1, 2, 5, 7, 4, 6, 3,
   5, 6, 4, 1, 3, 9, 8, 7, 2,
   2, 3, 7, 6, 8, 4, 1, 5, 9,
   4, 7, 3, 8, 1, 5, 9, 2, 6,
   8, 1, 9, 7, 6, 2, 5, 3, 4,
   6, 5, 2, 4, 9, 3, 7, 8, 0]

/-- A valid board on which the row trivial move breaks validity: row 0 is
`1..8 _` (so its only candidate is the digit 9), but column 8 already holds
a 9 at row 1. -/
def boardC6 : Board := mkBoard
  [1, 2, 3, 4, 5, 6, 7, 8, 0,
   0, 0, 0, 0, 0, 0, 0, 0, 9,
   0, 0, 0, 0, 0, 0, 0, 0, 0,
   0, 0, 0, 0, 0, 0, 0, 0, 0,
   0, 0, 0, 0, 0, 0, 0, 0, 0,
   0, 0, 0, 0, 0, 0, 0, 0, 0,
   0, 0, 0, 0, 0, 0, 0, 0, 0,
   0, 0, 0, 0, 0, 0, 0, 0, 0,
   0, 0, 0, 0, 0, 0, 0, 0, 0]

/-- An invalid board (two 1s in row 0) that is otherwise empty; the cell
(8,8) is empty and the digit 5 appears nowhere in its row, column or
section. -/
def boardC7 : Board := mkBoard
  [1, 1, 0, 0, 0, 0, 0, 0, 0,
   0, 0, 0, 0, 0, 0, 0, 0, 0,
   0, 0, 0, 0, 0, 0, 0, 0, 0,
   0, 0, 0, 0, 0, 0, 0, 0, 0,
   0, 0, 0, 0, 0, 0, 0, 0, 0,
   0, 0, 0, 0, 0, 0, 0, 0, 0,
   0, 0, 0, 0, 0, 0, 0, 0, 0,
   0, 0, 0, 0, 0, 0, 0, 0, 0,
   0, 0, 0, 0, 0, 0, 0, 0, 0]

/-- An invalid board with two 2s in column 0 and all other cells empty; the
cell (0,0) is empty and the digit 1 appears nowhere on the board. -/
def boardC8 : Board := mkBoard
  [0, 0, 0, 0, 0, 0, 0, 0, 0,
   2, 0, 0, 0, 0, 0, 0, 0, 0,
   2, 0, 0, 0, 0, 0, 0, 0, 0,
   0, 0, 0, 0, 0, 0, 0, 0, 0,
   0, 0, 0, 0, 0, 0, 0, 0, 0,
   0, 0, 0, 0, 0, 0, 0, 0, 0,
   0, 0, 0, 0, 0, 0, 0, 0, 0,
   0, 0, 0, 0, 0, 0, 0, 0, 0,
   0, 0, 0, 0, 0, 0, 0, 0, 0]

/-- A board with only the first row of S1 filled: 72 empty cells. -/
def boardRow0Only : Board := mkBoard
  [1, 9, 8, 5, 2, 6, 3, 4, 7,
   0, 0, 0, 0, 0, 0, 0, 0, 0,
   0, 0, 0, 0, 0, 0, 0, 0, 0,
   0, 0, 0, 0, 0, 0, 0, 0, 0,
   0, 0, 0, 0, 0, 0, 0, 0, 0,
   0, 0, 0, 0, 0, 0, 0, 0, 0,
   0, 0, 0, 0, 0, 0, 0, 0, 0,
   0, 0, 0, 0, 0, 0, 0, 0, 0,
   0, 0, 0, 0, 0, 0, 0, 0, 0]

/-- S1 with cell (0,0) emptied: a valid board whose only empty cell has
singleton domain digit 1. -/
def boardS1Minus00 : Board := mkBoard
  [0, 9, 8, 5, 2, 6, 3, 4, 7,
   7, 2, 5, 3, 4, 1, 6, 9, 8,
   3, 4, 6, 9, 7, 8, 2, 1, 5,
   9, 8, 1, 2, 5, 7, 4, 6, 3,
   5, 6, 4, 1, 3, 9, 8, 7, 2,
   2, 3, 7, 6, 8, 4, 1, 5, 9,
   4, 7, 3, 8, 1, 5, 9, 2, 6,
   8, 1, 9, 7, 6, 2, 5, 3, 4,
   6, 5, 2, 4, 9, 3, 7, 8, 1]

/-! Basic facts about indices, cells and board updates. -/

theorem mem_idx9 {i : Nat} : i ∈ idx9 ↔ i < 9 := by
  simp [idx9]
  omega

theorem length_setCell (b : Board) (r c v : Nat) :
    (setCell b r c v).length = b.length := List.length_set ..

theorem cellAt_eq_get (b : Board) (r c : Nat) (h : r * 9 + c < b.length) :
    cellAt b r c = b.get ⟨r * 9 + c, h⟩ := by
  simp [cellAt, List.getD, List.getElem?_eq_getElem h]

theorem cellAt_mem (b : Board) (r c : Nat) (hlen : b.length = 81)
    (hr : r ≤ 8) (hc : c ≤ 8) : cellAt b r c ∈ b := by
  have h : r * 9 + c < b.length := by omega
  rw [cellAt_eq_get b r c h]
  exact List.get_mem b _ h

theorem cellAt_setCell_self (b : Board) (r c v : Nat) (h : r * 9 + c < b.length) :
    cellAt (setCell b r c v) r c = v := by
  simp [cellAt, setCell, List.getD, List.getElem?_set_self, h]

theorem cellAt_setCell_ne (b : Board) {r c : Nat} (v : Nat) {s d : Nat}
    (hc : c ≤ 8) (hd : d ≤ 8) (hne : ¬(s = r ∧ d = c)) :
    cellAt (setCell b r c v) s d = cellAt b s d := by
  have hidx : r * 9 + c ≠ s * 9 + d := by omega
  simp [cellAt, setCell, List.getD, List.getElem?_set_ne hidx]

theorem mem_of_mem_cellsOf (b : Board) (ps : List (Nat × Nat)) (hlen : b.length = 81)
    (hps : ∀ p ∈ ps, p.1 ≤ 8 ∧ p.2 ≤ 8) : ∀ x ∈ cellsOf b ps, x ∈ b := by
  intro x hx
  simp only [cellsOf, List.mem_map] at hx
  obtain ⟨p, hp, rfl⟩ := hx
  exact cellAt_mem b p.1 p.2 hlen (hps p hp).1 (hps p hp).2

/-! Bit-level helper lemmas. -/

theorem testBit_one_shiftLeft (k i : Nat) : (1 <<< k).testBit i = decide (k = i) := by
  rw [Nat.one_shiftLeft]
  exact Nat.testBit_two_pow ..

theorem testBit_or_shift (m k i : Nat) :
    (m ||| 1 <<< k).testBit i = (m.testBit i || decide (k = i)) := by
  rw [Nat.testBit_or, testBit_one_shiftLeft]

theorem testBit_511 (i : Nat) : (511 : Nat).testBit i = decide (i < 9) := by
  have h : (511 : Nat) = 2 ^ 9 - 1 := rfl
  rw [h]
  exact Nat.testBit_two_pow_sub_one ..

/-! Characterization of the duplicate-check fold. -/

theorem foldl_checkStep_none (cells : List Nat) :
    cells.foldl checkStep none = none := by
  induction cells with
  | nil => rfl
  | cons x cs ih => simpa [checkStep] using ih

theorem digitsIdx_cons_underscore (cs : List Nat) :
    digitsIdx (underscore :: cs) = digitsIdx cs := by
  simp [digitsIdx]

theorem digitsIdx_cons_digit {x : Nat} (hx : x ≠ underscore) (cs : List Nat) :
    digitsIdx (x :: cs) = (x - 49) :: digitsIdx cs := by
  simp [digitsIdx, hx]

theorem digitsIdx_append (l1 l2 : List Nat) :
    digitsIdx (l1 ++ l2) = digitsIdx l1 ++ digitsIdx l2 := by
  simp [digitsIdx, List.filterMap_append]

theorem checkRun_iff (cells : List Nat) (m : Nat) :
    checkRun m cells = true ↔
      (digitsIdx cells).Nodup ∧ ∀ i ∈ digitsIdx cells, m.testBit i = false := by
  induction cells generalizing m with
  | nil => simp [checkRun, digitsIdx]
  | cons x cs ih =>
    by_cases hx : x = underscore
    · subst hx
      rw [digitsIdx_cons_underscore]
      simpa [checkRun, checkStep] using ih m
    · rw [digitsIdx_cons_digit hx]
      by_cases hbit : m.testBit (x - 49)
      · have hrun : checkRun m (x :: cs) = false := by
          simp [checkRun, checkStep, hx, hbit, foldl_checkStep_none]
        simp only [hrun]
        constructor
        · intro h
          exact absurd h (by simp)
        · rintro ⟨-, hall⟩
          have := hall (x - 49) (by simp)
          simp [hbit] at this
      · have hrun : checkRun m (x :: cs) = checkRun (m ||| 1 <<< (x - 49)) cs := by
          simp [checkRun, checkStep, hx, hbit]
        rw [hrun, ih]
        simp only [List.nodup_cons, List.mem_cons, testBit_or_shift]
        constructor
        · rintro ⟨hnd, hall⟩
          refine ⟨⟨?_, hnd⟩, ?_⟩
          · intro hmem
            have := hall _ hmem
            simp at this
          · rintro i (rfl | hi)
            · simpa using hbit
            · have := hall i hi
              simp at this
              simp [this]
        · rintro ⟨⟨hnotin, hnd⟩, hall⟩
          refine ⟨hnd, ?_⟩
          intro i hi
          have hne : x - 49 ≠ i := fun h => hnotin (h ▸ hi)
          have := hall i (Or.inr hi)
          simp [hne] at this ⊢
          exact this

theorem checkRun_zero_iff (cells : List Nat) :
    checkRun 0 cells = true ↔ (digitsIdx cells).Nodup := by
  rw [checkRun_iff]
  simp [Nat.zero_testBit]

theorem checkRun_shift_iff (cells : List Nat) (k : Nat) :
    checkRun (1 <<< k) cells = true ↔
      (digitsIdx cells).Nodup ∧ k ∉ digitsIdx cells := by
  rw [checkRun_iff]
  constructor
  · rintro ⟨hnd, hall⟩
    refine ⟨hnd, fun hmem => ?_⟩
    have := hall k hmem
    simp [testBit_one_shiftLeft] at this
  · rintro ⟨hnd, hnotin⟩
    refine ⟨hnd, fun i hi => ?_⟩
    have hne : k ≠ i := fun h => hnotin (h ▸ hi)
    rw [testBit_one_shiftLeft]
    simp [hne]

/-! Facts about the digit-index list of a unit. -/

theorem length_digitsIdx_add_count (cells : List Nat) :
    (digitsIdx cells).length + cells.count underscore = cells.length := by
  induction cells with
  | nil => simp [digitsIdx]
  | cons x cs ih =>
    by_cases hx : x = underscore
    · subst hx
      rw [digitsIdx_cons_underscore]
      simp [List.count_cons]
      omega
    · rw [digitsIdx_cons_digit hx]
      simp [List.count_cons, hx]
      omega

theorem mem_digitsIdx_iff {cells : List Nat} {i : Nat} :
    i ∈ digitsIdx cells ↔ ∃ x ∈ cells, x ≠ underscore ∧ x - 49 = i := by
  simp only [digitsIdx, List.mem_filterMap]
  constructor
  · rintro ⟨x, hx, hfx⟩
    by_cases h : x = underscore
    · simp [h] at hfx
    · simp [h] at hfx
      exact ⟨x, hx, h, hfx⟩
  · rintro ⟨x, hx, hne, hfx⟩
    exact ⟨x, hx, by simp [hne, hfx]⟩

theorem digitsIdx_subset_idx9 {cells : List Nat}
    (hwf : ∀ x ∈ cells, x = underscore ∨ (49 ≤ x ∧ x ≤ 57)) :
    ∀ i ∈ digitsIdx cells, i ∈ idx9 := by
  intro i hi
  rw [mem_digitsIdx_iff] at hi
  obtain ⟨x, hx, hne, rfl⟩ := hi
  rcases hwf x hx with h | h
  · exact absurd h hne
  · rw [mem_idx9]
    omega

theorem not_mem_digitsIdx {cells : List Nat} {v : Nat}
    (hwf : ∀ x ∈ cells, x = underscore ∨ (49 ≤ x ∧ x ≤ 57))
    (hv1 : 49 ≤ v) (hv2 : v ≤ 57) (hnotin : v ∉ cells) :
    v - 49 ∉ digitsIdx cells := by
  rw [mem_digitsIdx_iff]
  rintro ⟨x, hx, hne, hfx⟩
  rcases hwf x hx with h | h
  · exact hne h
  · have : x = v := by omega
    exact hnotin (this ▸ hx)

/-! Characterization of the population-table fold and the domain masks. -/

theorem testBit_popMask_aux (cells : List Nat) (m j : Nat) :
    (cells.foldl
      (fun m x => if x = underscore then m else m ||| (1 <<< (x - 49))) m).testBit j =
      (m.testBit j || decide (j ∈ digitsIdx cells)) := by
  induction cells generalizing m with
  | nil => simp [digitsIdx]
  | cons x cs ih =>
    by_cases hx : x = underscore
    · subst hx
      rw [digitsIdx_cons_underscore]
      simpa using ih m
    · rw [digitsIdx_cons_digit hx]
      simp only [List.foldl_cons, if_neg hx, ih, testBit_or_shift, List.mem_cons]
      by_cases h : x - 49 = j
      · simp [h]
      · have h2 : ¬ j = x - 49 := fun hh => h hh.symm
        simp [h, h2]

theorem testBit_popMask (cells : List Nat) (j : Nat) :
    (popMask cells).testBit j = decide (j ∈ digitsIdx cells) := by
  rw [popMask, testBit_popMask_aux]
  simp [Nat.zero_testBit]

theorem testBit_clearDigits (cells : List Nat) (m j : Nat) (hj : j < 9) :
    (clearDigits m cells).testBit j =
      (m.testBit j && decide (j ∉ digitsIdx cells)) := by
  induction cells generalizing m with
  | nil => simp [clearDigits, digitsIdx]
  | cons x cs ih =>
    by_cases hx : x = underscore
    · subst hx
      rw [digitsIdx_cons_underscore]
      simpa [clearDigits] using ih m
    · rw [digitsIdx_cons_digit hx]
      have hstep : clearDigits m (x :: cs) =
          clearDigits (m &&& (511 ^^^ (1 <<< (x - 49)))) cs := by
        simp [clearDigits, hx]
      rw [hstep, ih]
      have hmask : (m &&& (511 ^^^ (1 <<< (x - 49)))).testBit j =
          (m.testBit j && ! decide (x - 49 = j)) := by
        rw [Nat.testBit_and, Nat.testBit_xor, testBit_511, testBit_one_shiftLeft]
        by_cases h : x - 49 = j <;> simp [h, hj]
      rw [hmask]
      simp only [List.mem_cons]
      by_cases h : x - 49 = j
      · simp [h]
      · have h2 : ¬ j = x - 49 := fun hh => h hh.symm
        simp [h, h2]

/-! Counting lemma: for a duplicate-free well-formed unit, the number of
unset population-table entries equals the number of empty cells. -/

theorem filter_mem_length {dl : List Nat} (hnd : dl.Nodup)
    (hsub : ∀ i ∈ dl, i ∈ idx9) :
    (idx9.filter (fun i => decide (i ∈ dl))).length = dl.length := by
  have hnd9 : idx9.Nodup := by decide
  have hndf : (idx9.filter (fun i => decide (i ∈ dl))).Nodup := hnd9.filter _
  have hmem : ∀ i, i ∈ idx9.filter (fun i => decide (i ∈ dl)) ↔ i ∈ dl := by
    intro i
    simp only [List.mem_filter, decide_eq_true_eq]
    exact ⟨fun h => h.2, fun h => ⟨hsub i h, h⟩⟩
  have hperm : (idx9.filter (fun i => decide (i ∈ dl))).Perm dl := by
    apply List.perm_of_nodup_nodup_toFinset_eq hndf hnd
    ext i
    simp only [List.mem_toFinset]
    exact hmem i
  exact hperm.length_eq

theorem unsetCount_popMask {cells : List Nat} (hlen : cells.length = 9)
    (hwf : ∀ x ∈ cells, x = underscore ∨ (49 ≤ x ∧ x ≤ 57))
    (hnd : (digitsIdx cells).Nodup) :
    unsetCount (popMask cells) = cells.count underscore := by
  have hcongr : idx9.filter (fun i => ! (popMask cells).testBit i) =
      idx9.filter (fun i => ! decide (i ∈ digitsIdx cells)) := by
    apply List.filter_congr
    intro i _
    rw [testBit_popMask]
  have hsplit : idx9.length =
      (idx9.filter (fun i => decide (i ∈ digitsIdx cells))).length +
      (idx9.filter (fun i => ! decide (i ∈ digitsIdx cells))).length := by
    have h := (List.length_eq_length_filter_add
      (fun i => decide (i ∈ digitsIdx cells)) : idx9.length = _)
    simpa using h
  have hin := filter_mem_length hnd (digitsIdx_subset_idx9 hwf)
  have hcnt := length_digitsIdx_add_count cells
  have hlen9 : idx9.length = 9 := by decide
  unfold unsetCount
  rw [hcongr]
  omega

/-! Structure of the 27 constraint units. -/

theorem mem_rowIdxs {r : Nat} {p : Nat × Nat} : p ∈ rowIdxs r ↔ p.1 = r ∧ p.2 < 9 := by
  simp only [rowIdxs, List.mem_map]
  constructor
  · rintro ⟨c, hc, rfl⟩
    exact ⟨rfl, mem_idx9.mp hc⟩
  · rintro ⟨h1, h2⟩
    exact ⟨p.2, mem_idx9.mpr h2, by rw [← h1]⟩

theorem mem_colIdxs {c : Nat} {p : Nat × Nat} : p ∈ colIdxs c ↔ p.2 = c ∧ p.1 < 9 := by
  simp only [colIdxs, List.mem_map]
  constructor
  · rintro ⟨r, hr, rfl⟩
    exact ⟨rfl, mem_idx9.mp hr⟩
  · rintro ⟨h1, h2⟩
    exact ⟨p.1, mem_idx9.mpr h2, by rw [← h1]⟩

theorem rowIdxs_nodup (r : Nat) : (rowIdxs r).Nodup := by
  have h9 : idx9.Nodup := by decide
  exact h9.map (fun a b h => congrArg Prod.snd h)

theorem colIdxs_nodup (c : Nat) : (colIdxs c).Nodup := by
  have h9 : idx9.Nodup := by decide
  exact h9.map (fun a b h => congrArg Prod.fst h)

theorem rowIdxs_bounds {r : Nat} (hr : r ≤ 8) : ∀ p ∈ rowIdxs r, p.1 ≤ 8 ∧ p.2 ≤ 8 := by
  intro p hp
  rw [mem_rowIdxs] at hp
  omega

theorem colIdxs_bounds {c : Nat} (hc : c ≤ 8) : ∀ p ∈ colIdxs c, p.1 ≤ 8 ∧ p.2 ≤ 8 := by
  intro p hp
  rw [mem_colIdxs] at hp
  omega

theorem section_table_nodup : ∀ sec ∈ section_table, sec.Nodup := by decide

theorem section_table_bounds : ∀ sec ∈ section_table, ∀ p ∈ sec, p.1 ≤ 8 ∧ p.2 ≤ 8 := by
  decide

/-! Effect of a single cell write on the cells of a unit. -/

theorem cellsOf_setCell_not_mem (b : Board) {ps : List (Nat × Nat)} {r c : Nat} (v : Nat)
    (hc : c ≤ 8) (hps : ∀ p ∈ ps, p.1 ≤ 8 ∧ p.2 ≤ 8) (hnotin : (r, c) ∉ ps) :
    cellsOf (setCell b r c v) ps = cellsOf b ps := by
  unfold cellsOf
  apply List.map_congr_left
  intro p hp
  apply cellAt_setCell_ne b v hc (hps p hp).2
  rintro ⟨h1, h2⟩
  apply hnotin
  have : p = (r, c) := by
    rcases p with ⟨a, d⟩
    simp_all
  exact this ▸ hp

theorem cellsOf_setCell_mem (b : Board) {ps : List (Nat × Nat)} {r c : Nat} (v : Nat)
    (hlen : b.length = 81) (hr : r ≤ 8) (hc : c ≤ 8)
    (hps : ∀ p ∈ ps, p.1 ≤ 8 ∧ p.2 ≤ 8) (hnd : ps.Nodup) (hmem : (r, c) ∈ ps) :
    ∃ l1 l2, cellsOf b ps = l1 ++ cellAt b r c :: l2 ∧
      cellsOf (setCell b r c v) ps = l1 ++ v :: l2 := by
  obtain ⟨q1, q2, rfl⟩ := List.append_of_mem hmem
  have hnotin : (r, c) ∉ q1 ++ q2 := by
    rw [List.nodup_middle] at hnd
    exact (List.nodup_cons.mp hnd).1
  have hq1 : ∀ p ∈ q1, p.1 ≤ 8 ∧ p.2 ≤ 8 := fun p hp => hps p (by simp [hp])
  have hq2 : ∀ p ∈ q2, p.1 ≤ 8 ∧ p.2 ≤ 8 := fun p hp => hps p (by simp [hp])
  have hn1 : (r, c) ∉ q1 := fun h => hnotin (by simp [h])
  have hn2 : (r, c) ∉ q2 := fun h => hnotin (by simp [h])
  refine ⟨cellsOf b q1, cellsOf b q2, ?_, ?_⟩
  · simp [cellsOf]
  · have hself : cellAt (setCell b r c v) r c = v :=
      cellAt_setCell_self b r c v (by omega)
    have h1 := cellsOf_setCell_not_mem b v hc hq1 hn1
    have h2 := cellsOf_setCell_not_mem b v hc hq2 hn2
    simp only [cellsOf, List.map_append, List.map_cons] at h1 h2 ⊢
    rw [hself, h1, h2]

/-! Transfer of the duplicate check across a legal cell write. -/

theorem checkRun_setCell_of_true (b : Board) {ps : List (Nat × Nat)} {r c v : Nat}
    (hlen : b.length = 81) (hr : r ≤ 8) (hc : c ≤ 8)
    (hps : ∀ p ∈ ps, p.1 ≤ 8 ∧ p.2 ≤ 8) (hnd : ps.Nodup)
    (hempty : cellAt b r c = underscore)
    (hwfb : ∀ x ∈ b, x = underscore ∨ (49 ≤ x ∧ x ≤ 57))
    (hv1 : 49 ≤ v) (hv2 : v ≤ 57)
    (hnotin : (r, c) ∈ ps → v ∉ cellsOf b ps)
    (hok : checkRun 0 (cellsOf b ps) = true) :
    checkRun 0 (cellsOf (setCell b r c v) ps) = true := by
  by_cases hmem : (r, c) ∈ ps
  · obtain ⟨l1, l2, hold, hnew⟩ := cellsOf_setCell_mem b v hlen hr hc hps hnd hmem
    rw [checkRun_zero_iff] at hok ⊢
    rw [hold, hempty, digitsIdx_append, digitsIdx_cons_underscore] at hok
    rw [hnew, digitsIdx_append,
      digitsIdx_cons_digit (by simp [underscore]; omega), List.nodup_middle,
      List.nodup_cons]
    refine ⟨?_, hok⟩
    have hsubcells : ∀ x ∈ l1 ++ l2, x ∈ cellsOf b ps := by
      intro x hx
      rw [hold, hempty]
      rcases List.mem_append.mp hx with h | h
      · exact List.mem_append.mpr (Or.inl h)
      · exact List.mem_append.mpr (Or.inr (by simp [h]))
    have hwfcells : ∀ x ∈ l1 ++ l2, x = underscore ∨ (49 ≤ x ∧ x ≤ 57) := by
      intro x hx
      exact hwfb x (mem_of_mem_cellsOf b ps hlen hps x (hsubcells x hx))
    have hvnot : v ∉ l1 ++ l2 := fun h => (hnotin hmem) (hsubcells v h)
    have hres := not_mem_digitsIdx hwfcells hv1 hv2 hvnot
    rw [digitsIdx_append] at hres
    exact hres
  · rw [cellsOf_setCell_not_mem b v hc hps hmem]
    exact hok

theorem checkRun_setCell_of_false (b : Board) {ps : List (Nat × Nat)} {r c : Nat} (v : Nat)
    (hlen : b.length = 81) (hr : r ≤ 8) (hc : c ≤ 8)
    (hps : ∀ p ∈ ps, p.1 ≤ 8 ∧ p.2 ≤ 8) (hnd : ps.Nodup)
    (hempty : cellAt b r c = underscore)
    (hbad : checkRun 0 (cellsOf b ps) = false) :
    checkRun 0 (cellsOf (setCell b r c v) ps) = false := by
  by_cases hmem : (r, c) ∈ ps
  · obtain ⟨l1, l2, hold, hnew⟩ := cellsOf_setCell_mem b v hlen hr hc hps hnd hmem
    rw [← Bool.not_eq_true] at hbad ⊢
    rw [checkRun_zero_iff] at hbad ⊢
    intro hnd2
    apply hbad
    rw [hold, hempty, digitsIdx_append, digitsIdx_cons_underscore]
    rw [hnew, digitsIdx_append] at hnd2
    have hsub : (digitsIdx l1 ++ digitsIdx l2).Sublist
        (digitsIdx l1 ++ digitsIdx (v :: l2)) := by
      by_cases hv : v = underscore
      · rw [hv, digitsIdx_cons_underscore]
      · rw [digitsIdx_cons_digit hv]
        exact (List.sublist_cons_self _ _).append_left _
    exact hnd2.sublist hsub
  · rw [cellsOf_setCell_not_mem b v hc hps hmem]
    exact hbad

/-! Structure of `is_valid` and `is_populated`. -/

theorem is_populated_iff {b : Board} : is_populated b = true ↔ underscore ∉ b := by
  simp [is_populated]

theorem is_populated_false_iff {b : Board} : is_populated b = false ↔ underscore ∈ b := by
  simp [is_populated]

theorem emptyCount_eq_zero_iff {b : Board} : emptyCount b = 0 ↔ underscore ∉ b := by
  simp [emptyCount, List.count_eq_zero]

theorem rowsOk_iff {b : Board} :
    rowsOk b = true ↔ ∀ r ∈ idx9, checkRun 0 (rowCells b r) = true := List.all_eq_true

theorem colsOk_iff {b : Board} :
    colsOk b = true ↔ ∀ c ∈ idx9, checkRun 0 (colCells b c) = true := List.all_eq_true

theorem sectionsOk_iff {b : Board} :
    sectionsOk b = true ↔ ∀ sec ∈ section_table, checkRun 0 (cellsOf b sec) = true :=
  List.all_eq_true

theorem is_valid_of_all_units {b : Board} (hrow : rowsOk b = true)
    (hcol : colsOk b = true) (hsec : sectionsOk b = true) : is_valid b = true := by
  simp [is_valid, is_legal_state, hrow, hcol, hsec]

theorem is_valid_not_populated {b : Board} (hpop : is_populated b = false) :
    is_valid b = (rowsOk b && colsOk b && sectionsOk b) := by
  simp [is_valid, is_legal_state, hpop, Bool.and_assoc]

/-! Transfer of well-formedness and the empty-cell count across a write. -/

theorem WF_setCell {b : Board} {r c v : Nat} (hwf : WF b) (hv1 : 49 ≤ v) (hv2 : v ≤ 57) :
    WF (setCell b r c v) := by
  obtain ⟨hlen, hmem⟩ := hwf
  refine ⟨by rw [length_setCell, hlen], ?_⟩
  intro x hx
  rcases List.mem_or_eq_of_mem_set hx with h | rfl
  · exact hmem x h
  · right
    exact ⟨hv1, hv2⟩

theorem emptyCount_setCell {b : Board} {r c v : Nat} (hlen : b.length = 81)
    (hr : r ≤ 8) (hc : c ≤ 8) (hempty : cellAt b r c = underscore)
    (hv : v ≠ underscore) :
    emptyCount (setCell b r c v) + 1 = emptyCount b := by
  have hidx : r * 9 + c < b.length := by omega
  have hset : setCell b r c v = b.take (r * 9 + c) ++ v :: b.drop (r * 9 + c + 1) := by
    unfold setCell
    rw [List.set_eq_take_append_cons_drop]
    simp [hidx]
  have hdecomp : b = b.take (r * 9 + c) ++
      b.get ⟨r * 9 + c, hidx⟩ :: b.drop (r * 9 + c + 1) := by
    conv_lhs => rw [← List.take_append_drop (r * 9 + c) b]
    congr 1
    rw [List.drop_eq_getElem_cons hidx, List.get_eq_getElem]
  have hcell : b.get ⟨r * 9 + c, hidx⟩ = underscore := by
    rw [← cellAt_eq_get b r c hidx]
    exact hempty
  unfold emptyCount
  conv_rhs => rw [hdecomp]
  rw [hset, List.count_append, List.count_append, List.count_cons, List.count_cons, hcell]
  have hv95 : ¬ (v = 95) := fun h => hv (by rw [h]; rfl)
  simp [hv95, underscore]
  omega

/-! Facts about the section lookup. -/

theorem sectionContaining_spec : ∀ r ∈ idx9, ∀ c ∈ idx9,
    sectionContaining r c ∈ section_table ∧ (r, c) ∈ sectionContaining r c := by
  decide

theorem sectionContaining_eq_of_mem : ∀ r ∈ idx9, ∀ c ∈ idx9,
    ∀ sec ∈ section_table, (r, c) ∈ sec → sectionContaining r c = sec := by
  decide

theorem not_mem_section_of_ne : ∀ r ∈ idx9, ∀ c ∈ idx9,
    ∀ sec ∈ section_table, sec ≠ sectionContaining r c → (r, c) ∉ sec := by
  intro r hr c hc sec hsec hne hmem
  exact hne ((sectionContaining_eq_of_mem r hr c hc sec hsec hmem).symm)

/-! Validity is preserved by a write that is legal in the semantic sense
(empty target, digit absent from the target's row, column and section). -/

theorem is_valid_setCell_true (b : Board) {r c v : Nat} (hwf : WF b)
    (hvalid : is_valid b = true) (hr : r ≤ 8) (hc : c ≤ 8)
    (hv1 : 49 ≤ v) (hv2 : v ≤ 57) (hempty : cellAt b r c = underscore)
    (hvrow : v ∉ rowCells b r) (hvcol : v ∉ colCells b c)
    (hvsec : v ∉ sectionCells b r c) :
    is_valid (setCell b r c v) = true := by
  obtain ⟨hlen, hwfm⟩ := hwf
  have hpop : is_populated b = false := by
    rw [is_populated_false_iff]
    exact hempty ▸ cellAt_mem b r c hlen hr hc
  rw [is_valid_not_populated hpop] at hvalid
  simp only [Bool.and_eq_true] at hvalid
  obtain ⟨⟨hrow, hcol⟩, hsec⟩ := hvalid
  apply is_valid_of_all_units
  · rw [rowsOk_iff]
    intro s hs
    have hsb := mem_idx9.mp hs
    apply checkRun_setCell_of_true b hlen hr hc (rowIdxs_bounds (by omega))
      (rowIdxs_nodup s) hempty hwfm hv1 hv2
    · intro hmem
      have : s = r := (mem_rowIdxs.mp hmem).1.symm
      subst this
      exact hvrow
    · exact rowsOk_iff.mp hrow s hs
  · rw [colsOk_iff]
    intro d hd
    have hdb := mem_idx9.mp hd
    apply checkRun_setCell_of_true b hlen hr hc (colIdxs_bounds (by omega))
      (colIdxs_nodup d) hempty hwfm hv1 hv2
    · intro hmem
      have : d = c := (mem_colIdxs.mp hmem).1.symm
      subst this
      exact hvcol
    · exact colsOk_iff.mp hcol d hd
  · rw [sectionsOk_iff]
    intro sec hsecmem
    apply checkRun_setCell_of_true b hlen hr hc (section_table_bounds sec hsecmem)
      (section_table_nodup sec hsecmem) hempty hwfm hv1 hv2
    · intro hmem
      have heq := sectionContaining_eq_of_mem r (mem_idx9.mpr (by omega))
        c (mem_idx9.mpr (by omega)) sec hsecmem hmem
      rw [← heq]
      exact hvsec
    · exact sectionsOk_iff.mp hsec sec hsecmem

/-! Invalidity is preserved by any write into an empty cell, as long as the
result still has an empty cell (so that the full 27-unit check runs). -/

theorem is_valid_setCell_false (b : Board) {r c v : Nat} (hlen : b.length = 81)
    (hr : r ≤ 8) (hc : c ≤ 8) (hempty : cellAt b r c = underscore)
    (hinvalid : is_valid b = false) (hstill : underscore ∈ setCell b r c v) :
    is_valid (setCell b r c v) = false := by
  have hpop : is_populated b = false := by
    rw [is_populated_false_iff]
    exact hempty ▸ cellAt_mem b r c hlen hr hc
  have hpop2 : is_populated (setCell b r c v) = false :=
    is_populated_false_iff.mpr hstill
  rw [is_valid_not_populated hpop] at hinvalid
  rw [is_valid_not_populated hpop2]
  simp only [Bool.and_eq_false_iff] at hinvalid ⊢
  have hfalse : ∀ {x : Bool}, ¬ x = true → x = false := by
    intro x h
    cases x
    · rfl
    · exact absurd rfl h
  rcases hinvalid with h | h
  rcases h with h | h
  · left
    left
    have h2 : ¬ (rowsOk b = true) := by simp [h]
    rw [rowsOk_iff] at h2
    push_neg at h2
    obtain ⟨s, hsmem, hbad⟩ := h2
    have hb : checkRun 0 (rowCells b s) = false := hfalse hbad
    have hnew := checkRun_setCell_of_false b v hlen hr hc
      (rowIdxs_bounds (by have := mem_idx9.mp hsmem; omega)) (rowIdxs_nodup s) hempty hb
    apply hfalse
    rw [rowsOk_iff]
    intro hall
    have := hall s hsmem
    simp only [rowCells] at this
    rw [this] at hnew
    exact absurd hnew (by simp)
  · left
    right
    have h2 : ¬ (colsOk b = true) := by simp [h]
    rw [colsOk_iff] at h2
    push_neg at h2
    obtain ⟨d, hdmem, hbad⟩ := h2
    have hb : checkRun 0 (colCells b d) = false := hfalse hbad
    have hnew := checkRun_setCell_of_false b v hlen hr hc
      (colIdxs_bounds (by have := mem_idx9.mp hdmem; omega)) (colIdxs_nodup d) hempty hb
    apply hfalse
    rw [colsOk_iff]
    intro hall
    have := hall d hdmem
    simp only [colCells] at this
    rw [this] at hnew
    exact absurd hnew (by simp)
  · right
    have h2 : ¬ (sectionsOk b = true) := by simp [h]
    rw [sectionsOk_iff] at h2
    push_neg at h2
    obtain ⟨sec, hsmem, hbad⟩ := h2
    have hb : checkRun 0 (cellsOf b sec) = false := hfalse hbad
    have hnew := checkRun_setCell_of_false b v hlen hr hc
      (section_table_bounds sec hsmem) (section_table_nodup sec hsmem) hempty hb
    apply hfalse
    rw [sectionsOk_iff]
    intro hall
    have := hall sec hsmem
    rw [this] at hnew
    exact absurd hnew (by simp)

/-! Semantic reading of `is_legal_assignment` and of the domain mask on a
valid board. -/

theorem is_legal_assignment_iff_domainMask (b : Board) {r c v : Nat} (hwf : WF b)
    (hvalid : is_valid b = true) (hr : r ≤ 8) (hc : c ≤ 8)
    (hv1 : 49 ≤ v) (hv2 : v ≤ 57) (hempty : cellAt b r c = underscore) :
    (is_legal_assignment b r c v = true ↔ (domainMask b r c).testBit (v - 49) = true) := by
  obtain ⟨hlen, hwfm⟩ := hwf
  have hpop : is_populated b = false := by
    rw [is_populated_false_iff]
    exact hempty ▸ cellAt_mem b r c hlen hr hc
  rw [is_valid_not_populated hpop] at hvalid
  simp only [Bool.and_eq_true] at hvalid
  obtain ⟨⟨hrow, hcol⟩, hsec⟩ := hvalid
  have hndrow : (digitsIdx (rowCells b r)).Nodup :=
    checkRun_zero_iff _ |>.mp (rowsOk_iff.mp hrow r (mem_idx9.mpr (by omega)))
  have hndcol : (digitsIdx (colCells b c)).Nodup :=
    checkRun_zero_iff _ |>.mp (colsOk_iff.mp hcol c (mem_idx9.mpr (by omega)))
  have hsc := sectionContaining_spec r (mem_idx9.mpr (by omega)) c (mem_idx9.mpr (by omega))
  have hndsec : (digitsIdx (sectionCells b r c)).Nodup :=
    checkRun_zero_iff _ |>.mp (sectionsOk_iff.mp hsec _ hsc.1)
  have hj : v - 49 < 9 := by omega
  have hlhs : is_legal_assignment b r c v = true ↔
      ((v - 49) ∉ digitsIdx (colCells b c) ∧ (v - 49) ∉ digitsIdx (rowCells b r) ∧
       (v - 49) ∉ digitsIdx (sectionCells b r c)) := by
    unfold is_legal_assignment
    rw [if_neg (by simp [hempty])]
    simp only [Bool.and_eq_true, checkRun_shift_iff]
    constructor
    · rintro ⟨⟨⟨-, h1⟩, ⟨-, h2⟩⟩, ⟨-, h3⟩⟩
      exact ⟨h1, h2, h3⟩
    · rintro ⟨h1, h2, h3⟩
      exact ⟨⟨⟨hndcol, h1⟩, ⟨hndrow, h2⟩⟩, ⟨hndsec, h3⟩⟩
  have hrhs : (domainMask b r c).testBit (v - 49) = true ↔
      ((v - 49) ∉ digitsIdx (colCells b c) ∧ (v - 49) ∉ digitsIdx (rowCells b r) ∧
       (v - 49) ∉ digitsIdx (sectionCells b r c)) := by
    unfold domainMask
    rw [if_neg (by simp [hempty])]
    rw [testBit_clearDigits _ _ _ hj, testBit_clearDigits _ _ _ hj,
      testBit_clearDigits _ _ _ hj, testBit_511]
    simp only [Bool.and_eq_true, decide_eq_true_eq]
    constructor
    · rintro ⟨⟨⟨-, h2⟩, h1⟩, h3⟩
      exact ⟨h1, h2, h3⟩
    · rintro ⟨h1, h2, h3⟩
      exact ⟨⟨⟨by simpa using hj, h2⟩, h1⟩, h3⟩
  rw [hlhs, hrhs]

/-! Characterization of a failed trivial-move pass. -/

theorem apply_trivial_row_move_none_iff {b : Board} :
    apply_trivial_row_move b = none ↔
      ∀ r ∈ idx9, unsetCount (popMask (rowCells b r)) ≠ 1 := by
  unfold apply_trivial_row_move
  rcases h : idx9.find? (fun r => decide (unsetCount (popMask (rowCells b r)) = 1)) with _ | r
  · simp only []
    constructor
    · intro _ r hr
      have := List.find?_eq_none.mp h r hr
      simpa using this
    · intro _
      trivial
  · simp only []
    constructor
    · intro hc
      cases hc
    · intro hall
      have hp := List.find?_some h
      have hmem := List.mem_of_find?_eq_some h
      simp only [decide_eq_true_eq] at hp
      exact absurd hp (hall r hmem)

theorem apply_trivial_column_move_none_iff {b : Board} :
    apply_trivial_column_move b = none ↔
      ∀ c ∈ idx9, unsetCount (popMask (colCells b c)) ≠ 1 := by
  unfold apply_trivial_column_move
  rcases h : idx9.find? (fun c => decide (unsetCount (popMask (colCells b c)) = 1)) with _ | c
  · simp only []
    constructor
    · intro _ c hc
      have := List.find?_eq_none.mp h c hc
      simpa using this
    · intro _
      trivial
  · simp only []
    constructor
    · intro hc
      cases hc
    · intro hall
      have hp := List.find?_some h
      have hmem := List.mem_of_find?_eq_some h
      simp only [decide_eq_true_eq] at hp
      exact absurd hp (hall c hmem)

theorem apply_trivial_section_move_none_iff {b : Board} :
    apply_trivial_section_move b = none ↔
      ∀ sec ∈ section_table, unsetCount (popMask (cellsOf b sec)) ≠ 1 := by
  unfold apply_trivial_section_move
  rcases h : section_table.find?
      (fun sec => decide (unsetCount (popMask (cellsOf b sec)) = 1)) with _ | sec
  · simp only []
    constructor
    · intro _ sec hsec
      have := List.find?_eq_none.mp h sec hsec
      simpa using this
    · intro _
      trivial
  · simp only []
    constructor
    · intro hc
      cases hc
    · intro hall
      have hp := List.find?_some h
      have hmem := List.mem_of_find?_eq_some h
      simp only [decide_eq_true_eq] at hp
      exact absurd hp (hall sec hmem)

theorem apply_trivial_move_none_elim {b : Board} (h : apply_trivial_move b = none) :
    apply_trivial_row_move b = none ∧ apply_trivial_column_move b = none ∧
      apply_trivial_section_move b = none := by
  unfold apply_trivial_move at h
  rcases h1 : apply_trivial_row_move b with _ | b1
  · rw [h1] at h
    rcases h2 : apply_trivial_column_move b with _ | b2
    · rw [h2] at h
      exact ⟨rfl, rfl, h⟩
    · rw [h2] at h
      cases h
  · rw [h1] at h
    cases h

/-! Per-unit counting on a valid board. -/

theorem unit_count_of_valid {b : Board} (hwf : WF b) {ps : List (Nat × Nat)}
    (hps : ∀ p ∈ ps, p.1 ≤ 8 ∧ p.2 ≤ 8) (hlen9 : ps.length = 9)
    (hok : checkRun 0 (cellsOf b ps) = true) :
    unsetCount (popMask (cellsOf b ps)) = (cellsOf b ps).count underscore := by
  apply unsetCount_popMask
  · simp [cellsOf, hlen9]
  · intro x hx
    exact hwf.2 x (mem_of_mem_cellsOf b ps hwf.1 hps x hx)
  · exact (checkRun_zero_iff _).mp hok

/-! Claim theorems. -/

/-- C3 (code evaluated at the failing input): the board whose nine rows each
read `1 2 3 4 5 6 7 8 9` is accepted by `is_valid` (and even by `is_solved`),
although column 0 contains the digit 1 nine times — the populated-board
early return skips the column and section checks, so `is_valid` is *not*
equivalent to "no unit contains the same digit twice". -/
theorem is_valid_accepts_column_duplicates :
    is_valid boardRows9 = true ∧ is_solved boardRows9 = true ∧
      2 ≤ (colCells boardRows9 0).count 49 ∧ (49 : Nat) ≠ underscore := by
  decide

/-- C6 (code evaluated at the failing input): on the valid board `boardC6`
(row 0 is `1..8 _`, cell (1,8) holds 9), `apply_trivial_move` succeeds by
writing 9 at (0,8); the result has one fewer empty cell but is no longer
valid (column 8 now holds two 9s), contradicting the claim and the
function's own `assert(this->is_valid())`. -/
theorem apply_trivial_move_breaks_validity :
    is_valid boardC6 = true ∧
      apply_trivial_move boardC6 = some (setCell boardC6 0 8 57) ∧
      is_valid (setCell boardC6 0 8 57) = false ∧
      emptyCount (setCell boardC6 0 8 57) + 1 = emptyCount boardC6 := by
  decide

/-- C7 (counterexample): on the invalid board `boardC7` (two 1s in row 0),
the assignment of digit 5 at the empty cell (8,8) is legal in the claim's
sense (empty target, digit absent from the target's row, column and
section), yet the resulting board still fails `is_valid` — so the claim is
false when quantified over every board. -/
theorem assign_legal_on_invalid_board_not_valid :
    cellAt boardC7 8 8 = underscore ∧
      (53 : Nat) ∉ rowCells boardC7 8 ∧ (53 : Nat) ∉ colCells boardC7 8 ∧
      (53 : Nat) ∉ sectionCells boardC7 8 8 ∧
      is_valid (setCell boardC7 8 8 53) = false := by
  decide

/-- C7 (amended): for every *valid* well-formed board `b` and every
assignment that is legal on `b` in the semantic sense — target cell `(r, c)`
empty and the digit `v` absent from the target's row, column and section —
the board obtained by performing the assignment satisfies `is_valid`. -/
theorem is_valid_assign_of_legal (b : Board) (r c v : Nat) (hwf : WF b)
    (hvalid : is_valid b = true) (hr : r ≤ 8) (hc : c ≤ 8)
    (hv1 : 49 ≤ v) (hv2 : v ≤ 57) (hempty : cellAt b r c = underscore)
    (hrow : v ∉ rowCells b r) (hcol : v ∉ colCells b c)
    (hsec : v ∉ sectionCells b r c) :
    is_valid (setCell b r c v) = true :=
  is_valid_setCell_true b hwf hvalid hr hc hv1 hv2 hempty hrow hcol hsec

/-- Witness for `is_valid_assign_of_legal` at a concrete input: assigning
digit 1 to the single empty cell (0,0) of `boardS1Minus00`. -/
theorem is_valid_assign_of_legal_witness :
    is_valid (setCell boardS1Minus00 0 0 49) = true :=
  is_valid_assign_of_legal boardS1Minus00 0 0 49 (by decide) (by decide) (by decide)
    (by decide) (by decide) (by decide) (by decide) (by decide) (by decide) (by decide)

/-- C8 (counterexample): on the invalid board `boardC8` (two 2s in column 0),
for the empty cell (0,0) and digit 1, bit 0 of the `query_domains` mask is
set, yet `is_legal_assignment` returns `false` (its duplicate walk trips on
the repeated 2 in the column), so the claimed equivalence fails on invalid
boards. -/
theorem is_legal_assignment_mask_mismatch :
    cellAt boardC8 0 0 = underscore ∧
      is_legal_assignment boardC8 0 0 49 = false ∧
      ((query_domains boardC8).getD 0 ⟨(0, 0), 0, 0⟩).legal_assignments.testBit 0 = true := by
  decide

theorem allCells_getElem : ∀ r ∈ idx9, ∀ c ∈ idx9, allCells[r * 9 + c]? = some (r, c) := by
  decide

theorem query_domains_getD (b : Board) {r c : Nat} (hr : r ≤ 8) (hc : c ≤ 8) :
    (query_domains b).getD (r * 9 + c) ⟨(0, 0), 0, 0⟩ =
      ⟨(r, c), domainMask b r c, cellAt b r c⟩ := by
  have hcell := allCells_getElem r (mem_idx9.mpr (by omega)) c (mem_idx9.mpr (by omega))
  unfold query_domains
  simp [List.getD, List.getElem?_map, hcell]

/-- C8 (amended): on every *valid* well-formed board, for every empty cell
`(r, c)` and digit `v ∈ '1'..'9'`, `is_legal_assignment` returns `true`
exactly when bit `v - '1'` is set in the `legal_assignments` mask of entry
`(r, c)` of `query_domains`. -/
theorem is_legal_assignment_iff_query_domains (b : Board) (r c v : Nat) (hwf : WF b)
    (hvalid : is_valid b = true) (hr : r ≤ 8) (hc : c ≤ 8)
    (hv1 : 49 ≤ v) (hv2 : v ≤ 57) (hempty : cellAt b r c = underscore) :
    (is_legal_assignment b r c v = true ↔
      ((query_domains b).getD (r * 9 + c) ⟨(0, 0), 0, 0⟩).legal_assignments.testBit
        (v - 49) = true) := by
  rw [query_domains_getD b hr hc]
  exact is_legal_assignment_iff_domainMask b hwf hvalid hr hc hv1 hv2 hempty

/-- Witness for `is_legal_assignment_iff_query_domains`: on `boardS1Minus00`
with cell (0,0) and digit 1 both sides of the equivalence hold. -/
theorem is_legal_assignment_iff_query_domains_witness :
    is_legal_assignment boardS1Minus00 0 0 49 = true ∧
      ((query_domains boardS1Minus00).getD 0 ⟨(0, 0), 0, 0⟩).legal_assignments.testBit
        0 = true :=
  ⟨by decide,
   (is_legal_assignment_iff_query_domains boardS1Minus00 0 0 49 (by decide) (by decide)
     (by decide) (by decide) (by decide) (by decide) (by decide)).mp (by decide)⟩

/-- C9: `try_assign` either rejects an illegal assignment and leaves the
board bit-identical, or accepts a legal one, returns `true`, writes the
digit at the target and changes no other cell.  The digit bounds are those
of the `Assignment` data model (`value ∈ '1'..'9'`), which the function's
debug asserts also require. -/
theorem try_assign_frame (b : Board) (r c v : Nat) (hlen : b.length = 81)
    (hr : r ≤ 8) (hc : c ≤ 8) (hv1 : 49 ≤ v) (hv2 : v ≤ 57) :
    (is_legal_assignment b r c v = false → try_assign b r c v = (false, b)) ∧
    (is_legal_assignment b r c v = true →
      try_assign b r c v = (true, setCell b r c v) ∧
      cellAt (setCell b r c v) r c = v ∧
      ∀ s d, s ≤ 8 → d ≤ 8 → ¬(s = r ∧ d = c) →
        cellAt (setCell b r c v) s d = cellAt b s d) := by
  constructor
  · intro hfalse
    unfold try_assign
    rw [hfalse]
    rfl
  · intro htrue
    refine ⟨?_, ?_, ?_⟩
    · unfold try_assign
      rw [htrue]
      rfl
    · exact cellAt_setCell_self b r c v (by omega)
    · intro s d hs hd hne
      exact cellAt_setCell_ne b v hc hd hne

/-- Witness for `try_assign_frame`: on `boardS1Minus00`, assigning 1 at
(0,0) is accepted and writes the cell; assigning 9 at (0,0) is rejected and
the board is returned unchanged. -/
theorem try_assign_frame_witness :
    try_assign boardS1Minus00 0 0 49 = (true, setCell boardS1Minus00 0 0 49) ∧
      try_assign boardS1Minus00 0 0 57 = (false, boardS1Minus00) :=
  ⟨((try_assign_frame boardS1Minus00 0 0 49 (by decide) (by decide) (by decide)
      (by decide) (by decide)).2 (by decide)).1,
   (try_assign_frame boardS1Minus00 0 0 57 (by decide) (by decide) (by decide)
      (by decide) (by decide)).1 (by decide)⟩

/-- C10: every assignment in the compile-time array
`all_possible_assignments` — the only source of assignments `solve`'s
`generate_states` ever tests — has row and column in `0..8` and value in
`'1'..'9'`, so the digit-range asserts of `is_legal_assignment` hold on
every call the solver makes. -/
theorem all_possible_assignments_in_range :
    ∀ a ∈ all_possible_assignments,
      a.row ≤ 8 ∧ a.col ≤ 8 ∧ 49 ≤ a.value ∧ a.value ≤ 57 := by
  decide

/-- Witness for `all_possible_assignments_in_range` at the first array
entry. -/
theorem all_possible_assignments_in_range_witness :
    (⟨0, 0, 49⟩ : Assignment) ∈ all_possible_assignments ∧
      (⟨0, 0, 49⟩ : Assignment).row ≤ 8 ∧ (⟨0, 0, 49⟩ : Assignment).col ≤ 8 ∧
      49 ≤ (⟨0, 0, 49⟩ : Assignment).value ∧ (⟨0, 0, 49⟩ : Assignment).value ≤ 57 :=
  ⟨by decide, all_possible_assignments_in_range ⟨0, 0, 49⟩ (by decide)⟩

/-- C2 (counterexample): on the valid board `boardC2`, `apply_trivial_move`
finds nothing (no row, column or section triggers its per-unit criterion),
yet the empty cell (0,0) has a single-element full domain — the criterion
the code implements is not the full-domain single-bit criterion of the
claim. -/
theorem apply_trivial_move_misses_singleton_domain :
    apply_trivial_move boardC2 = none ∧ cellAt boardC2 0 0 = underscore ∧
      maskCard (domainMask boardC2 0 0) = 1 := by
  decide

/-- C2 (amended): on a valid well-formed board, when `apply_trivial_move`
returns `false`, no unit (row, column or section) contains exactly one
empty cell — the per-unit criterion the code actually implements. -/
theorem apply_trivial_move_none_no_unit_single_empty (b : Board) (hwf : WF b)
    (hvalid : is_valid b = true) (hnone : apply_trivial_move b = none) :
    (∀ r ∈ idx9, (rowCells b r).count underscore ≠ 1) ∧
    (∀ c ∈ idx9, (colCells b c).count underscore ≠ 1) ∧
    (∀ sec ∈ section_table, (cellsOf b sec).count underscore ≠ 1) := by
  obtain ⟨hrow, hcol, hsec⟩ := apply_trivial_move_none_elim hnone
  rw [apply_trivial_row_move_none_iff] at hrow
  rw [apply_trivial_column_move_none_iff] at hcol
  rw [apply_trivial_section_move_none_iff] at hsec
  by_cases hpop : is_populated b = true
  · have h95 : underscore ∉ b := is_populated_iff.mp hpop
    have hzero : ∀ (ps : List (Nat × Nat)), (∀ p ∈ ps, p.1 ≤ 8 ∧ p.2 ≤ 8) →
        (cellsOf b ps).count underscore = 0 := by
      intro ps hps
      rw [List.count_eq_zero]
      intro hmem
      exact h95 (mem_of_mem_cellsOf b ps hwf.1 hps underscore hmem)
    refine ⟨?_, ?_, ?_⟩
    · intro r hr
      show (cellsOf b (rowIdxs r)).count underscore ≠ 1
      rw [hzero (rowIdxs r) (rowIdxs_bounds (by have := mem_idx9.mp hr; omega))]
      omega
    · intro c hc
      show (cellsOf b (colIdxs c)).count underscore ≠ 1
      rw [hzero (colIdxs c) (colIdxs_bounds (by have := mem_idx9.mp hc; omega))]
      omega
    · intro sec hsecmem
      rw [hzero sec (section_table_bounds sec hsecmem)]
      omega
  · have hpop' : is_populated b = false := by
      cases h : is_populated b
      · rfl
      · exact absurd h hpop
    rw [is_valid_not_populated hpop'] at hvalid
    simp only [Bool.and_eq_true] at hvalid
    obtain ⟨⟨hrowOk, hcolOk⟩, hsecOk⟩ := hvalid
    refine ⟨?_, ?_, ?_⟩
    · intro r hr
      show (cellsOf b (rowIdxs r)).count underscore ≠ 1
      rw [← unit_count_of_valid hwf (rowIdxs_bounds (by have := mem_idx9.mp hr; omega))
        (by simp [rowIdxs, idx9]) (rowsOk_iff.mp hrowOk r hr)]
      exact hrow r hr
    · intro c hc
      show (cellsOf b (colIdxs c)).count underscore ≠ 1
      rw [← unit_count_of_valid hwf (colIdxs_bounds (by have := mem_idx9.mp hc; omega))
        (by simp [colIdxs, idx9]) (colsOk_iff.mp hcolOk c hc)]
      exact hcol c hc
    · intro sec hsecmem
      have hlen9 : sec.length = 9 := by
        revert hsecmem
        revert sec
        decide
      rw [← unit_count_of_valid hwf (section_table_bounds sec hsecmem) hlen9
        (sectionsOk_iff.mp hsecOk sec hsecmem)]
      exact hsec sec hsecmem

/-- Witness for `apply_trivial_move_none_no_unit_single_empty` at the board
`boardC2`. -/
theorem apply_trivial_move_none_no_unit_single_empty_witness :
    (∀ r ∈ idx9, (rowCells boardC2 r).count underscore ≠ 1) ∧
    (∀ c ∈ idx9, (colCells boardC2 c).count underscore ≠ 1) ∧
    (∀ sec ∈ section_table, (cellsOf boardC2 sec).count underscore ≠ 1) :=
  apply_trivial_move_none_no_unit_single_empty boardC2 (by decide) (by decide) (by decide)

/-! Facts about `generate_states` with the null propagator. -/

theorem is_legal_assignment_target_empty {b : Board} {r c v : Nat}
    (h : is_legal_assignment b r c v = true) : cellAt b r c = underscore := by
  by_cases hc : cellAt b r c = underscore
  · exact hc
  · unfold is_legal_assignment at h
    rw [if_pos (by simpa using hc)] at h
    cases h

theorem assign_copy_of_legal {b : Board} {a : Assignment}
    (h : is_legal_assignment b a.row a.col a.value = true) :
    assign_copy b a = setCell b a.row a.col a.value := by
  simp [assign_copy, try_assign, h]

theorem generate_states_null_mem {node n : SearchNode} :
    n ∈ (generate_states null_optimization node).1 ↔
      ∃ a, a ∈ all_possible_assignments ∧
        is_legal_assignment node.board a.row a.col a.value = true ∧
        n.board = setCell node.board a.row a.col a.value ∧
        n.depth = node.depth + 1 ∧ is_valid n.board = true ∧
        (is_solved n.board = true ∨ has_legal_assignments n.board = true) := by
  unfold generate_states
  simp only [List.mem_map, List.mem_reverse, List.mem_filter, Bool.or_eq_true]
  constructor
  · rintro ⟨m, ⟨⟨⟨a, ⟨hamem, halegal⟩, rfl⟩, hvalid⟩, hlive⟩, rfl⟩
    refine ⟨a, hamem, halegal, ?_⟩
    rw [assign_copy_of_legal halegal] at hvalid hlive ⊢
    exact ⟨rfl, rfl, hvalid, hlive⟩
  · rintro ⟨a, hamem, halegal, hboard, hdepth, hvalid, hlive⟩
    refine ⟨⟨n.board, n.depth⟩, ⟨⟨⟨a, ⟨hamem, halegal⟩, ?_⟩, ?_⟩, ?_⟩, ?_⟩
    · rw [assign_copy_of_legal halegal, ← hboard, hdepth]
    · exact hvalid
    · exact hlive
    · rfl

theorem foldl_null_count (l : List SearchNode) (acc : Nat) :
    l.foldl (fun acc n => acc + (null_optimization n.board).2) acc = acc := by
  induction l generalizing acc with
  | nil => rfl
  | cons x xs ih => simpa [null_optimization] using ih acc

theorem generate_states_null_count (node : SearchNode) :
    (generate_states null_optimization node).2 =
      (generate_states null_optimization node).1.length := by
  unfold generate_states
  simp only [foldl_null_count, List.length_map, Nat.zero_add]

/-- C5 (amended): with the null propagator, each expansion step of `solve`
creates one child per legal assignment over *all* cells of the board — any
assignment from the compile-time array that is legal, yields a valid board,
and leaves the board solved or still assignable — not only assignments to
the first empty cell; the assignment counter is increased by exactly the
number of children kept. -/
theorem generate_states_spec (node n : SearchNode) :
    (n ∈ (generate_states null_optimization node).1 ↔
      ∃ a, a ∈ all_possible_assignments ∧
        is_legal_assignment node.board a.row a.col a.value = true ∧
        n.board = setCell node.board a.row a.col a.value ∧
        n.depth = node.depth + 1 ∧ is_valid n.board = true ∧
        (is_solved n.board = true ∨ has_legal_assignments n.board = true)) ∧
    (generate_states null_optimization node).2 =
      (generate_states null_optimization node).1.length :=
  ⟨generate_states_null_mem, generate_states_null_count node⟩

/-- C5 (counterexample): on `boardC5` (empty cells (0,0) and (8,8)), the
first empty cell in row-major order is (0,0), yet `generate_states`
produces a child obtained by assigning cell (8,8) — the solver does not
branch only on the first empty cell. -/
theorem generate_states_branches_beyond_first_empty :
    firstEmptyCell boardC5 = some (0, 0) ∧
      (⟨setCell boardC5 8 8 49, 1⟩ : SearchNode) ∈
        (generate_states null_optimization ⟨boardC5, 0⟩).1 ∧
      cellAt (setCell boardC5 8 8 49) 8 8 ≠ cellAt boardC5 8 8 := by
  refine ⟨by decide, ?_, by decide⟩
  have h : (generate_states null_optimization ⟨boardC5, 0⟩).1 =
      [⟨setCell boardC5 8 8 49, 1⟩, ⟨setCell boardC5 0 0 49, 1⟩] := by decide
  rw [h]
  exact List.mem_cons_self _ _

/-! Facts used to settle the claims about `solve` itself. -/

theorem mem_all_possible_bounds :
    ∀ a ∈ all_possible_assignments,
      a.row ≤ 8 ∧ a.col ≤ 8 ∧ 49 ≤ a.value ∧ a.value ≤ 57 := by
  decide

theorem count_pos_of_mem {b : Board} (h : underscore ∈ b) : emptyCount b ≠ 0 := by
  intro hz
  exact (emptyCount_eq_zero_iff.mp hz) h

theorem mem_of_emptyCount_pos {b : Board} (h : emptyCount b ≠ 0) : underscore ∈ b := by
  by_contra hn
  exact h (emptyCount_eq_zero_iff.mpr hn)

theorem generate_states_null_invalid {b : Board} (hwf : WF b)
    (hinvalid : is_valid b = false) (hcnt : emptyCount b ≠ 1) :
    generate_states null_optimization ⟨b, 0⟩ = ([], 0) := by
  have hnil : (generate_states null_optimization ⟨b, 0⟩).1 = [] := by
    rw [List.eq_nil_iff_forall_not_mem]
    intro n hn
    rw [generate_states_null_mem] at hn
    obtain ⟨a, hamem, halegal, hboard, hdepth, hvalid, hlive⟩ := hn
    obtain ⟨hr, hc, hv1, hv2⟩ := mem_all_possible_bounds a hamem
    have hempty := is_legal_assignment_target_empty halegal
    have hmem95 : underscore ∈ b := hempty ▸ cellAt_mem b a.row a.col hwf.1 hr hc
    have hcnt2 : 2 ≤ emptyCount b := by
      have := count_pos_of_mem hmem95
      omega
    have hv95 : a.value ≠ underscore := by
      simp only [underscore]
      omega
    have hdec := emptyCount_setCell hwf.1 hr hc hempty hv95
    have hstill : underscore ∈ setCell b a.row a.col a.value := by
      apply mem_of_emptyCount_pos
      omega
    have hfalse := is_valid_setCell_false b hwf.1 hr hc hempty hinvalid hstill
    rw [hboard] at hvalid
    rw [hvalid] at hfalse
    cases hfalse
  have hcount := generate_states_null_count ⟨b, 0⟩
  rw [hnil] at hcount
  rw [Prod.ext_iff]
  exact ⟨hnil, by simpa using hcount⟩

theorem solveLoop_nil (cb : Callback) (count fuel : Nat) :
    solveLoop cb [] count fuel = .finished count := by
  cases fuel <;> rfl

/-- C1 (amended): for every well-formed, initially invalid board that does
not have exactly one empty cell, `solve` with the null propagator does not
return: every child state is still invalid, so the frontier starts empty,
the final solved check fails, and the process exits with failure
(`std::exit(EXIT_FAILURE)` after printing "No solution found!"), leaving the
board unmodified at exit.  (The one-empty-cell exception is forced by the
populated-board shortcut inside `is_valid`, under which filling the last
empty cell of an invalid board can yield a board the checker accepts.) -/
theorem solve_null_invalid_exits (b : Board) (hwf : WF b)
    (hinvalid : is_valid b = false) (hcnt : emptyCount b ≠ 1) :
    solve null_optimization b = SolveResult.exitFailure b := by
  have hgs := generate_states_null_invalid hwf hinvalid hcnt
  have hsolved : is_solved b = false := by
    have h2 : is_legal_state b = false := hinvalid
    simp [is_solved, h2]
  unfold solve
  simp only [null_optimization, hgs, List.reverse_nil, solveLoop_nil, hsolved,
    Bool.false_eq_true, if_false]

/-- Witness for `solve_null_invalid_exits` at the fully populated invalid
board `boardInvalidFull2`. -/
theorem solve_null_invalid_exits_witness :
    solve null_optimization boardInvalidFull2 = SolveResult.exitFailure boardInvalidFull2 :=
  solve_null_invalid_exits boardInvalidFull2 (by decide) (by decide) (by decide)

/-- C1 (counterexample): on the fully populated invalid board
`boardInvalidFull`, `solve` with the null propagator terminates the process
via `std::exit(EXIT_FAILURE)` instead of returning a `(count, false)` pair —
the claimed no-abort contract does not hold. -/
theorem solve_aborts_on_invalid_input :
    solve null_optimization boardInvalidFull = SolveResult.exitFailure boardInvalidFull := by
  decide

theorem deepPops_spec : ∀ (s : List SearchNode) (t : SearchNode) (r : List SearchNode),
    deepPops s = some (t, r) → t ∈ s ∧ t.depth ≤ 49 ∧ ∀ n ∈ r, n ∈ s := by
  intro s
  induction s with
  | nil =>
    intro t r h
    cases h
  | cons top rest ih =>
    intro t r h
    unfold deepPops at h
    by_cases hd : 50 ≤ top.depth
    · rw [if_pos hd] at h
      obtain ⟨h1, h2, h3⟩ := ih t r h
      exact ⟨List.mem_cons_of_mem _ h1, h2, fun n hn => List.mem_cons_of_mem _ (h3 n hn)⟩
    · rw [if_neg hd] at h
      simp only [Option.some.injEq, Prod.mk.injEq] at h
      obtain ⟨rfl, rfl⟩ := h
      exact ⟨List.mem_cons_self _ _, by omega, fun n hn => List.mem_cons_of_mem _ hn⟩

theorem generate_states_null_child {t n : SearchNode} (hlen : t.board.length = 81)
    (hmem : n ∈ (generate_states null_optimization t).1) :
    n.board.length = 81 ∧ n.depth = t.depth + 1 ∧
      emptyCount n.board + 1 = emptyCount t.board := by
  rw [generate_states_null_mem] at hmem
  obtain ⟨a, hamem, halegal, hboard, hdepth, -, -⟩ := hmem
  obtain ⟨hr, hc, hv1, hv2⟩ := mem_all_possible_bounds a hamem
  have hempty := is_legal_assignment_target_empty halegal
  have hv95 : a.value ≠ underscore := by
    simp only [underscore]
    omega
  refine ⟨?_, hdepth, ?_⟩
  · rw [hboard, length_setCell, hlen]
  · rw [hboard]
    exact emptyCount_setCell hlen hr hc hempty hv95

theorem solveLoop_zero (cb : Callback) (top : SearchNode) (rest : List SearchNode)
    (count : Nat) : solveLoop cb (top :: rest) count 0 = .outOfFuel := rfl

theorem solveLoop_cons (cb : Callback) (top : SearchNode) (rest : List SearchNode)
    (count f : Nat) :
    solveLoop cb (top :: rest) count (f + 1) =
      if is_solved top.board then .success count top.board
      else
        match deepPops (top :: rest) with
        | none => .ub
        | some (t, r) =>
          match (generate_states cb t).1 with
          | [] =>
            match r with
            | [] => .exitF
            | _ :: r2 =>
              match r2 with
              | [] => .exitF
              | _ :: r3 => solveLoop cb r3 (count + (generate_states cb t).2) f
          | _ :: _ => solveLoop cb ((generate_states cb t).1.reverse ++ r)
              (count + (generate_states cb t).2) f := rfl

theorem solveLoop_null_no_success (E : Nat) (hE : 50 < E) :
    ∀ (fuel : Nat) (stack : List SearchNode) (count : Nat),
      (∀ n ∈ stack,
        n.board.length = 81 ∧ n.depth ≤ 50 ∧ emptyCount n.board + n.depth = E) →
      ∀ m bd, solveLoop null_optimization stack count fuel ≠ .success m bd := by
  intro fuel
  induction fuel with
  | zero =>
    intro stack count hinv m bd
    cases stack with
    | nil =>
      rw [solveLoop_nil]
      intro h
      cases h
    | cons top rest =>
      rw [solveLoop_zero]
      intro h
      cases h
  | succ f ih =>
    intro stack count hinv m bd
    cases stack with
    | nil =>
      rw [solveLoop_nil]
      intro h
      cases h
    | cons top rest =>
      rw [solveLoop_cons]
      by_cases hsol : is_solved top.board = true
      · exfalso
        obtain ⟨hlen, hdep, hcnt⟩ := hinv top (List.mem_cons_self _ _)
        have hpop : is_populated top.board = true := by
          unfold is_solved at hsol
          exact ((Bool.and_eq_true _ _).mp hsol).1
        have hz : emptyCount top.board = 0 :=
          emptyCount_eq_zero_iff.mpr (is_populated_iff.mp hpop)
        omega
      · rw [if_neg hsol]
        cases hdp : deepPops (top :: rest) with
        | none =>
          intro h
          cases h
        | some pr =>
          obtain ⟨t, r⟩ := pr
          obtain ⟨htmem, htdep, hrsub⟩ := deepPops_spec _ t r hdp
          obtain ⟨hlent, hdept, hcntt⟩ := hinv t htmem
          dsimp only
          cases hgs : (generate_states null_optimization t).1 with
          | nil =>
            dsimp only
            cases r with
            | nil =>
              intro h
              cases h
            | cons x r2 =>
              cases r2 with
              | nil =>
                intro h
                cases h
              | cons y r3 =>
                apply ih
                intro n hn
                exact hinv n (hrsub n
                  (List.mem_cons_of_mem _ (List.mem_cons_of_mem _ hn)))
          | cons ch chs =>
            dsimp only
            apply ih
            intro n hn
            rcases List.mem_append.mp hn with h | h
            · rw [List.mem_reverse, ← hgs] at h
              obtain ⟨hlen', hdep', hcnt'⟩ := generate_states_null_child hlent h
              exact ⟨hlen', by omega, by omega⟩
            · exact hinv n (hrsub n h)

theorem solve_null_no_success (b : Board) (hlen : b.length = 81)
    (hE : 50 < emptyCount b) : ∀ m bd, solve null_optimization b ≠ .normal m bd := by
  intro m bd hcontra
  have hsolved : is_solved b = false := by
    have h95 : underscore ∈ b := mem_of_emptyCount_pos (by omega)
    have hpop : is_populated b = false := is_populated_false_iff.mpr h95
    simp [is_solved, hpop]
  have hinv : ∀ n ∈ (generate_states null_optimization ⟨b, 0⟩).1.reverse,
      n.board.length = 81 ∧ n.depth ≤ 50 ∧ emptyCount n.board + n.depth = emptyCount b := by
    intro n hn
    rw [List.mem_reverse] at hn
    have hlen0 : (SearchNode.mk b 0).board.length = 81 := hlen
    obtain ⟨hlen', hdep', hcnt'⟩ := generate_states_null_child hlen0 hn
    dsimp only at hdep' hcnt'
    exact ⟨hlen', by omega, by omega⟩
  unfold solve at hcontra
  simp only [null_optimization] at hcontra
  cases hres : solveLoop null_optimization (generate_states null_optimization ⟨b, 0⟩).1.reverse
      (0 + (generate_states null_optimization ⟨b, 0⟩).2) solveFuelBound with
  | success m' bd' =>
    exact solveLoop_null_no_success (emptyCount b) hE solveFuelBound _ _ hinv m' bd' hres
  | finished n =>
    rw [hres] at hcontra
    simp only [hsolved, Bool.false_eq_true, if_false] at hcontra
    cases hcontra
  | exitF =>
    rw [hres] at hcontra
    cases hcontra
  | ub =>
    rw [hres] at hcontra
    cases hcontra
  | outOfFuel =>
    rw [hres] at hcontra
    cases hcontra

theorem isNormal_false_of_no_normal {res : SolveResult}
    (h : ∀ m bd, res ≠ .normal m bd) : isNormal res = false := by
  cases res with
  | normal m bd => exact absurd rfl (h m bd)
  | exitFailure bd => rfl
  | ub => rfl
  | outOfFuel => rfl

/-- C4 (amended): with the null propagator, `solve` never returns normally
from a board with more than 50 empty cells: the constant `max_depth = 50`
discards deeper nodes, every frontier node fills exactly one cell per depth
level, and a solved board would need depth `emptyCount > 50` — so the
search depth is capped by the constant 50, not by the number of empty cells
(≤ 81), and such boards (the all-empty board among them) are never solved. -/
theorem solve_null_never_solves_beyond_depth_cap (b : Board) (hlen : b.length = 81)
    (hE : 50 < emptyCount b) : isNormal (solve null_optimization b) = false :=
  isNormal_false_of_no_normal (solve_null_no_success b hlen hE)

/-- Witness for `solve_null_never_solves_beyond_depth_cap` at the concrete
board `boardRow0Only` (72 empty cells). -/
theorem solve_null_never_solves_beyond_depth_cap_witness :
    isNormal (solve null_optimization boardRow0Only) = false :=
  solve_null_never_solves_beyond_depth_cap boardRow0Only (by decide) (by decide)

/-- C4 (counterexample): the all-empty board — which the claim says must be
solved — is never solved by `solve` with the null propagator: the call
cannot return normally (every normal return passes the final `is_solved`
check, which requires filling 81 cells, while the depth cap 50 discards
every node deep enough to do so). -/
theorem solve_null_empty_board_never_solved :
    isNormal (solve null_optimization boardEmpty) = false :=
  isNormal_false_of_no_normal (solve_null_no_success boardEmpty (by decide) (by decide))
